import Mathlib

/-!
Verification of the alert-provider base module of the `keep` repository,
shallowly embedded from `src/keep/providers/base/base_provider.py`.

The embedding models Python values by the inductive `Val` (dicts are
association lists with the insertion order that Python dicts preserve),
and models the `AlertDto` entity (which lives outside `src/`, in
`keep.api.models.alert`) from the spec's data-model section.  SHA-256 is
modelled by the stream of bytes fed to the digest: `update` concatenates,
`hexdigest` returns the accumulated stream.  This is exact for the
stream-concatenation behaviour of `hashlib.sha256`, and stands in for the
hex digest injectively (real SHA-256 collisions are assumed absent).
-/

namespace Keep

mutual
/-- A Python value as it appears in alert payloads, query results and
enrichment maps: `None`, strings, numbers, booleans, lists, dicts
(association lists in insertion order, keys unique) and tuples. -/
inductive Val where
  | null : Val
  | str (s : String) : Val
  | nat (n : Nat) : Val
  | bool (b : Bool) : Val
  | list (items : ValList) : Val
  | dict (entries : ValDict) : Val
  | tuple (items : ValList) : Val
inductive ValList where
  | nil : ValList
  | cons (v : Val) (rest : ValList) : ValList
inductive ValDict where
  | nil : ValDict
  | cons (k : String) (v : Val) (rest : ValDict) : ValDict
end

def ValList.isEmpty : ValList → Bool
  | .nil => true
  | .cons _ _ => false

def ValDict.isEmpty : ValDict → Bool
  | .nil => true
  | .cons _ _ _ => false

/-- Python truthiness (`bool(v)`): `None`, `0`, `False`, empty strings and
empty containers are falsy, everything else is truthy. -/
def Val.truthy : Val → Bool
  | .null => false
  | .str s => !(s == "")
  | .nat n => n != 0
  | .bool b => b
  | .list items => !items.isEmpty
  | .dict entries => !entries.isEmpty
  | .tuple items => !items.isEmpty

/-- Python `d.get(k)` / `d[k]` lookup on a dict (keys are unique, so
first-match association-list lookup is exact). -/
def ValDict.get? : ValDict → String → Option Val
  | .nil, _ => none
  | .cons k' v rest, k => if k = k' then some v else rest.get? k

/-- Python `d[k] = v`: overwrite in place if the key exists (keeping its
position, as Python dicts do), otherwise append at the end. -/
def ValDict.set : ValDict → String → Val → ValDict
  | .nil, k, v => .cons k v .nil
  | .cons k' v' rest, k, v =>
    if k = k' then .cons k v rest else .cons k' v' (rest.set k v)

def ValDict.toList : ValDict → List (String × Val)
  | .nil => []
  | .cons k v rest => (k, v) :: rest.toList

def ValDict.keys (d : ValDict) : List String := d.toList.map Prod.fst

mutual
/-- Model of `json.dumps` with its default separators `", "` and `": "`.
Python's `json.dumps` does NOT sort keys (no `sort_keys=True` in the
source): dict entries are emitted in insertion order.  String escaping is
elided (no claim involves strings needing escapes). -/
def Val.dumps : Val → String
  | .null => "null"
  | .str s => "\"" ++ s ++ "\""
  | .nat n => toString n
  | .bool true => "true"
  | .bool false => "false"
  | .list items => "[" ++ ValList.dumpsItems items ++ "]"
  | .dict entries => "\x7b" ++ ValDict.dumpsEntries entries ++ "\x7d"
  | .tuple items => "[" ++ ValList.dumpsItems items ++ "]"
def ValList.dumpsItems : ValList → String
  | .nil => ""
  | .cons v .nil => Val.dumps v
  | .cons v rest => Val.dumps v ++ ", " ++ ValList.dumpsItems rest
def ValDict.dumpsEntries : ValDict → String
  | .nil => ""
  | .cons k v .nil => "\"" ++ k ++ "\": " ++ Val.dumps v
  | .cons k v rest => "\"" ++ k ++ "\": " ++ Val.dumps v ++ ", " ++ ValDict.dumpsEntries rest
end

/-- Model of Python `str(v)` for the values the digest loop feeds to
`update` (composites have already been replaced by their `json.dumps`
string at that point; the container branches, unreachable from that loop,
elide Python repr quoting). -/
def pyStr : Val → String
  | .null => "None"
  | .str s => s
  | .nat n => toString n
  | .bool true => "True"
  | .bool false => "False"
  | .list items => "[" ++ ValList.dumpsItems items ++ "]"
  | .dict entries => "\x7b" ++ ValDict.dumpsEntries entries ++ "\x7d"
  | .tuple items => "(" ++ ValList.dumpsItems items ++ ")"

/-- SHA-256 digest state, modelled by the concatenation of the inputs fed
to it.  `hashlib.sha256().update(a).update(b)` and `.update(a ++ b)` reach
the same state, which this model reproduces exactly; `hexdigest` is
modelled as the accumulated stream itself, an injective stand-in for the
real hex digest (SHA-256 collisions assumed absent). -/
structure Sha256 where
  stream : String

def Sha256.init : Sha256 := ⟨""⟩

def Sha256.update (h : Sha256) (s : String) : Sha256 := ⟨h.stream ++ s⟩

def Sha256.hexdigest (h : Sha256) : String := h.stream

/-- The (model of the) hex digest of the empty SHA-256 input, i.e. what
`hashlib.sha256().hexdigest()` returns when `update` was never called
(`e3b0c442...` in reality). -/
def sha256EmptyHexDigest : String := Sha256.init.hexdigest

/-- Modelled from the spec: the canonical Alert entity (`AlertDto` lives in
`keep.api.models.alert`, outside `src/`); fields per the spec's data model
(section 3).  `extra` holds attributes overlaid by enrichment that are not
declared fields.  `None` option values render as falsy `Val.null` in the
`dict()` view, matching Python. -/
structure AlertDto where
  id : String := ""
  name : String := ""
  status : String := "firing"
  lastReceived : Nat := 0
  environment : String := ""
  isDuplicate : Bool := false
  duplicateReason : Option String := none
  service : String := ""
  source : List String := []
  message : String := ""
  description : String := ""
  severity : String := "info"
  pushed : Bool := false
  event_id : String := ""
  url : Option String := none
  fingerprint : Option String := none
  providerId : Option String := none
  extra : ValDict := .nil

def optStrVal : Option String → Val
  | some s => .str s
  | none => .null

def ValList.ofStrings : List String → ValList
  | [] => .nil
  | s :: rest => .cons (.str s) (ofStrings rest)

/-- Modelled from the spec: `alert.dict()`, the pydantic conversion of the
Alert entity into a mapping from field name to value, in declaration
order, followed by enrichment-overlaid extra attributes. -/
def AlertDto.dict (a : AlertDto) : ValDict :=
  .cons "id" (.str a.id) <|
  .cons "name" (.str a.name) <|
  .cons "status" (.str a.status) <|
  .cons "lastReceived" (.nat a.lastReceived) <|
  .cons "environment" (.str a.environment) <|
  .cons "isDuplicate" (.bool a.isDuplicate) <|
  .cons "duplicateReason" (optStrVal a.duplicateReason) <|
  .cons "service" (.str a.service) <|
  .cons "source" (.list (ValList.ofStrings a.source)) <|
  .cons "message" (.str a.message) <|
  .cons "description" (.str a.description) <|
  .cons "severity" (.str a.severity) <|
  .cons "pushed" (.bool a.pushed) <|
  .cons "event_id" (.str a.event_id) <|
  .cons "url" (optStrVal a.url) <|
  .cons "fingerprint" (optStrVal a.fingerprint) <|
  .cons "providerId" (optStrVal a.providerId) <|
  a.extra

/-- One iteration of the digest loop of `BaseProvider.get_alert_fingerprint`
(source lines 278-283): fetch the field value from `alert.dict()` with
default `None`, replace a `list`/`dict` value by its `json.dumps` string,
then, if the (possibly replaced) value is truthy, feed `str(value)` to the
digest; otherwise skip the field. -/
def fingerprintFieldStep (event_dict : ValDict) (h : Sha256) (field : String) : Sha256 :=
  let v0 : Val := (event_dict.get? field).getD .null
  let v1 : Val :=
    match v0 with
    | .list items => .str (Val.dumps (.list items))
    | .dict entries => .str (Val.dumps (.dict entries))
    | v => v
  if v1.truthy then h.update (pyStr v1) else h

/-- `BaseProvider.get_alert_fingerprint` (source lines 262-284): with no
fingerprint fields, return `alert.name`; otherwise fold the digest loop
over the fields in order and return the hex digest. -/
def get_alert_fingerprint (alert : AlertDto) (fingerprint_fields : List String) : String :=
  if fingerprint_fields.isEmpty then alert.name
  else (fingerprint_fields.foldl (fingerprintFieldStep alert.dict) Sha256.init).hexdigest

/-! ## Grouping by fingerprint

`get_alerts_by_fingerprint` (source lines 323-372) fetches alerts,
stable-sorts them by the `fingerprint` attribute (`sorted` with
`key=operator.attrgetter("fingerprint")` — Python's sort is stable and
compares strings lexicographically by code point), chunks them into runs
of equal fingerprint with `itertools.groupby`, builds a dict from the
runs, then overlays stored enrichments in place. -/

/-- Lexicographic-by-code-point comparison of character lists: the order
Python uses to compare strings.  (`String`'s built-in order is not used
because its comparison function does not reduce in the kernel.) -/
def lexLeb : List Char → List Char → Bool
  | [], _ => true
  | _ :: _, [] => false
  | a :: as, b :: bs =>
    if a.toNat < b.toNat then true
    else if b.toNat < a.toNat then false
    else lexLeb as bs

theorem lexLeb_total : ∀ a b : List Char, lexLeb a b = true ∨ lexLeb b a = true
  | [], _ => Or.inl rfl
  | _ :: _, [] => Or.inr rfl
  | a :: as, b :: bs => by
    by_cases h1 : a.toNat < b.toNat
    · left; simp [lexLeb, h1]
    · by_cases h2 : b.toNat < a.toNat
      · right; simp [lexLeb, h2]
      · rcases lexLeb_total as bs with h | h
        · left; simp [lexLeb, h1, h2, h]
        · right; simp [lexLeb, h1, h2, h]

theorem lexLeb_trans :
    ∀ a b c : List Char, lexLeb a b = true → lexLeb b c = true → lexLeb a c = true
  | [], _, _, _, _ => rfl
  | _ :: _, [], _, h, _ => by simp [lexLeb] at h
  | _ :: _, _ :: _, [], _, h => by simp [lexLeb] at h
  | a :: as, b :: bs, c :: cs, h1, h2 => by
    simp only [lexLeb] at h1 h2 ⊢
    by_cases hab : a.toNat < b.toNat
    · by_cases hbc : b.toNat < c.toNat
      · have hac : a.toNat < c.toNat := Nat.lt_trans hab hbc
        simp [hac]
      · by_cases hcb : c.toNat < b.toNat
        · simp [hbc, hcb] at h2
        · have hac : a.toNat < c.toNat := by omega
          simp [hac]
    · by_cases hba : b.toNat < a.toNat
      · simp [hab, hba] at h1
      · by_cases hbc : b.toNat < c.toNat
        · have hac : a.toNat < c.toNat := by omega
          simp [hac]
        · by_cases hcb : c.toNat < b.toNat
          · simp [hbc, hcb] at h2
          · have hac1 : ¬ a.toNat < c.toNat := by omega
            have hac2 : ¬ c.toNat < a.toNat := by omega
            simp only [hab, hba, if_false] at h1
            simp only [hbc, hcb, if_false] at h2
            simp only [hac1, hac2, if_false]
            exact lexLeb_trans as bs cs h1 h2

theorem lexLeb_antisymm : ∀ a b : List Char, lexLeb a b = true → lexLeb b a = true → a = b
  | [], [], _, _ => rfl
  | [], _ :: _, _, h => by simp [lexLeb] at h
  | _ :: _, [], h, _ => by simp [lexLeb] at h
  | a :: as, b :: bs, h1, h2 => by
    simp only [lexLeb] at h1 h2
    by_cases hab : a.toNat < b.toNat
    · have hba : ¬ b.toNat < a.toNat := by omega
      simp [hba, hab] at h2
    · by_cases hba : b.toNat < a.toNat
      · simp [hab, hba] at h1
      · have hval : a.val.toNat = b.val.toNat := by
          simp only [Char.toNat] at hab hba
          omega
        have heq : a = b := Char.ext_iff.mpr (UInt32.ext_iff.mpr hval)
        simp only [hab, hba, if_false] at h1 h2
        rw [heq, lexLeb_antisymm as bs h1 h2]

theorem lexLeb_antisymm_str {s t : String} (h1 : lexLeb s.data t.data = true)
    (h2 : lexLeb t.data s.data = true) : s = t := by
  cases s; cases t
  simp only at h1 h2
  rw [lexLeb_antisymm _ _ h1 h2]

/-- The sort key of the grouping step: `operator.attrgetter("fingerprint")`.
The claims about grouping assume every fetched alert carries a fingerprint
(a `None` fingerprint would make Python's `sorted` raise a `TypeError` when
mixed with strings); `getD ""` is only ever applied under that assumption. -/
def fpKey (a : AlertDto) : String := a.fingerprint.getD ""

/-- The comparison `sorted` uses between two alerts under the fingerprint
key. -/
def fpLe (x y : AlertDto) : Prop := lexLeb (fpKey x).data (fpKey y).data = true

instance : DecidableRel fpLe := fun x y =>
  inferInstanceAs (Decidable (lexLeb (fpKey x).data (fpKey y).data = true))

instance : IsTotal AlertDto fpLe := ⟨fun a b => lexLeb_total (fpKey a).data (fpKey b).data⟩

instance : IsTrans AlertDto fpLe :=
  ⟨fun _ _ _ hab hbc => lexLeb_trans _ _ _ hab hbc⟩

/-- `sorted(alerts, key=operator.attrgetter("fingerprint"))` (source line
341): a stable sort by the fingerprint key.  Insertion sort with a
reflexive total comparison produces exactly the stable-sort result that
Python's Timsort guarantees. -/
def pySortAlerts (alerts : List AlertDto) : List AlertDto :=
  List.insertionSort fpLe alerts

/-- `itertools.groupby(·, key=attrgetter("fingerprint"))` (source lines
340-346): chunk a list into maximal runs of consecutive elements with
equal fingerprint, pairing each run with its key. -/
def groupRuns : List AlertDto → List (String × List AlertDto)
  | [] => []
  | a :: rest =>
    match groupRuns rest with
    | [] => [(fpKey a, [a])]
    | (k, g) :: gs =>
      if fpKey a = k then (k, a :: g) :: gs else (fpKey a, [a]) :: (k, g) :: gs

/-- Python `d[k] = v` on the grouping dict: overwrite in place when the key
exists, else append. -/
def groupsSet : List (String × List AlertDto) → String → List AlertDto →
    List (String × List AlertDto)
  | [], k, v => [(k, v)]
  | (k', v') :: rest, k, v =>
    if k = k' then (k, v) :: rest else (k', v') :: groupsSet rest k v

/-- The dict comprehension of source lines 338-347: build a Python dict
from the `(fingerprint, run)` pairs in order. -/
def groupsOfPairs (ps : List (String × List AlertDto)) : List (String × List AlertDto) :=
  ps.foldl (fun d p => groupsSet d p.1 p.2) []

/-- The grouping step of `get_alerts_by_fingerprint` (source lines
336-347): `{fingerprint: list(alerts) for fingerprint, alerts in
itertools.groupby(sorted(alerts, key=get_attr), get_attr)}`.  This is the
dict the function returns; the enrichment loop that follows (lines
349-370) mutates the alert objects inside it in place and never changes
the dict's keys or the group membership. -/
def group_alerts_by_fingerprint (alerts : List AlertDto) : List (String × List AlertDto) :=
  groupsOfPairs (groupRuns (pySortAlerts alerts))

/-- The Python runtime errors the embedded code can raise. -/
inductive PyErr where
  | unboundLocalError : PyErr
  | attributeError : PyErr
  | indexError : PyErr
  | typeError : PyErr
  | noFingerprintError : PyErr
deriving DecidableEq

/-- An enrichment record as returned by the external store
(`get_enrichments`): a fingerprint together with the persisted key/value
enrichments. -/
structure AlertEnrichment where
  alert_fingerprint : String
  enrichments : ValDict

/-- Modelled from the spec: Python `setattr(alert, k, v)` on the canonical
Alert entity (`AlertDto` lives outside `src/`; the spec says enrichments
are overlaid "via attribute assignment").  Declared fields are updated
when the value has the declared shape; any other assignment is recorded
among the extra attributes.  No claim depends on type-mismatched
assignments. -/
def AlertDto.pySetattr (a : AlertDto) (k : String) (v : Val) : AlertDto :=
  match k, v with
  | "id", .str s => { a with id := s }
  | "name", .str s => { a with name := s }
  | "status", .str s => { a with status := s }
  | "lastReceived", .nat n => { a with lastReceived := n }
  | "environment", .str s => { a with environment := s }
  | "isDuplicate", .bool b => { a with isDuplicate := b }
  | "duplicateReason", .str s => { a with duplicateReason := some s }
  | "duplicateReason", .null => { a with duplicateReason := none }
  | "service", .str s => { a with service := s }
  | "message", .str s => { a with message := s }
  | "description", .str s => { a with description := s }
  | "severity", .str s => { a with severity := s }
  | "pushed", .bool b => { a with pushed := b }
  | "event_id", .str s => { a with event_id := s }
  | "url", .str s => { a with url := some s }
  | "url", .null => { a with url := none }
  | "fingerprint", .str s => { a with fingerprint := some s }
  | "fingerprint", .null => { a with fingerprint := none }
  | "providerId", .str s => { a with providerId := some s }
  | "providerId", .null => { a with providerId := none }
  | k, v => { a with extra := a.extra.set k v }

/-- The per-alert overlay of one enrichment record (source lines 360-370):
first `parse_and_enrich_deleted_and_assignees` (an external collaborator,
passed in as `pedaa`), then `setattr` for every enrichment key in order. -/
def applyEnrichmentsToAlert (pedaa : AlertDto → ValDict → AlertDto) (en : ValDict)
    (a : AlertDto) : AlertDto :=
  en.toList.foldl (fun x kv => x.pySetattr kv.1 kv.2) (pedaa a en)

/-- Python `.get` on the grouping dict. -/
def groupsGet : List (String × List AlertDto) → String → Option (List AlertDto)
  | [], _ => none
  | (k', v) :: rest, k => if k = k' then some v else groupsGet rest k

/-- Replace the group stored under a key (the in-place mutation of the
alerts of that group, seen functionally). -/
def groupsUpdate (g : List (String × List AlertDto)) (k : String)
    (nv : List AlertDto) : List (String × List AlertDto) :=
  g.map fun p => if p.1 = k then (p.1, nv) else p

/-- One iteration of the enrichment loop (source lines 355-370): look the
record's fingerprint up in the grouping dict (`grouped_alerts.get`; a
record for an unknown fingerprint makes the `for` loop iterate over
`None`, a `TypeError`) and overlay the record onto every alert of that
group.  Records themselves are ORM objects and always truthy, so the
`if alert_enrichment:` guard never skips. -/
def applyEnrichmentRecord (pedaa : AlertDto → ValDict → AlertDto)
    (g : List (String × List AlertDto)) (rec : AlertEnrichment) :
    Except PyErr (List (String × List AlertDto)) :=
  match groupsGet g rec.alert_fingerprint with
  | none => .error .typeError
  | some alerts =>
    .ok (groupsUpdate g rec.alert_fingerprint
      (alerts.map (applyEnrichmentsToAlert pedaa rec.enrichments)))

/-- `BaseProvider.get_alerts` (source lines 312-321): fetch from the
provider and stamp each alert with this provider's id. -/
def get_alerts (provider_id : String) (fetched : List AlertDto) : List AlertDto :=
  fetched.map fun a => { a with providerId := some provider_id }

/-- `BaseProvider.get_alerts_by_fingerprint(tenant_id)` (source lines
323-372).  `alerts` is the list `self.get_alerts()` returned; the external
enrichment store `get_enrichments` is a parameter.  The result pairs the
returned dict with the log of store calls made (tenant and requested
fingerprints), so "the store was never consulted" is expressible as that
log being empty. -/
def get_alerts_by_fingerprint (pedaa : AlertDto → ValDict → AlertDto)
    (get_enrichments : String → List String → List AlertEnrichment)
    (tenant_id : String) (alerts : List AlertDto) :
    Except PyErr (List (String × List AlertDto) × List (String × List String)) :=
  if alerts.isEmpty then .ok ([], [])
  else
    let grouped := group_alerts_by_fingerprint alerts
    let keys := grouped.map Prod.fst
    let recs := get_enrichments tenant_id keys
    match recs.foldlM (applyEnrichmentRecord pedaa) grouped with
    | .error e => .error e
    | .ok final => .ok (final, [(tenant_id, keys)])

/-! ## Properties of the grouping step -/

/-- Concatenate all groups of a grouping dict, in order. -/
def groupsFlatten : List (String × List AlertDto) → List AlertDto
  | [] => []
  | p :: rest => p.2 ++ groupsFlatten rest

theorem groupsFlatten_mem {g : List (String × List AlertDto)} {a : AlertDto} :
    a ∈ groupsFlatten g ↔ ∃ p ∈ g, a ∈ p.2 := by
  induction g with
  | nil => simp [groupsFlatten]
  | cons p rest ih => simp [groupsFlatten, ih, or_and_right, exists_or]

theorem groupRuns_flatten : ∀ l : List AlertDto, groupsFlatten (groupRuns l) = l
  | [] => rfl
  | a :: rest => by
    have ih := groupRuns_flatten rest
    cases h : groupRuns rest with
    | nil =>
      rw [h] at ih
      simp [groupRuns, h, groupsFlatten, ← ih]
    | cons p gs =>
      obtain ⟨k, g⟩ := p
      rw [h] at ih
      simp only [groupsFlatten] at ih
      by_cases hk : fpKey a = k
      · simp [groupRuns, h, hk, groupsFlatten, ih]
      · simp [groupRuns, h, hk, groupsFlatten, ih]

theorem groupRuns_eq_nil (b : AlertDto) (rest : List AlertDto)
    (h : groupRuns rest = []) : groupRuns (b :: rest) = [(fpKey b, [b])] := by
  rw [groupRuns, h]

theorem groupRuns_eq_cons (b : AlertDto) (rest : List AlertDto) (k : String)
    (g : List AlertDto) (gs : List (String × List AlertDto))
    (h : groupRuns rest = (k, g) :: gs) :
    groupRuns (b :: rest) =
      if fpKey b = k then (k, b :: g) :: gs
      else (fpKey b, [b]) :: (k, g) :: gs := by
  rw [groupRuns, h]

theorem groupRuns_key :
    ∀ l : List AlertDto, ∀ p ∈ groupRuns l, ∀ a ∈ p.2, fpKey a = p.1
  | [], p, hp, _, _ => by simp [groupRuns] at hp
  | b :: rest, p, hp, a, ha => by
    have ih := groupRuns_key rest
    cases h : groupRuns rest with
    | nil =>
      rw [groupRuns_eq_nil b rest h] at hp
      simp only [List.mem_singleton] at hp
      subst hp
      simp only [List.mem_singleton] at ha
      subst ha
      rfl
    | cons q gs =>
      obtain ⟨k, g⟩ := q
      rw [groupRuns_eq_cons b rest k g gs h] at hp
      by_cases hk : fpKey b = k
      · rw [if_pos hk] at hp
        rcases List.mem_cons.mp hp with rfl | hmem
        · rcases List.mem_cons.mp ha with rfl | hmem2
          · exact hk
          · exact ih (k, g) (h ▸ List.mem_cons_self _ _) a hmem2
        · exact ih p (h ▸ List.mem_cons_of_mem _ hmem) a ha
      · rw [if_neg hk] at hp
        rcases List.mem_cons.mp hp with rfl | hmem
        · simp only [List.mem_singleton] at ha
          subst ha
          rfl
        · exact ih p (h ▸ hmem) a ha

theorem groupRuns_group_ne_nil :
    ∀ l : List AlertDto, ∀ p ∈ groupRuns l, p.2 ≠ []
  | [], p, hp => by simp [groupRuns] at hp
  | b :: rest, p, hp => by
    have ih := groupRuns_group_ne_nil rest
    cases h : groupRuns rest with
    | nil =>
      rw [groupRuns_eq_nil b rest h] at hp
      simp only [List.mem_singleton] at hp
      subst hp
      simp
    | cons q gs =>
      obtain ⟨k, g⟩ := q
      rw [groupRuns_eq_cons b rest k g gs h] at hp
      by_cases hk : fpKey b = k
      · rw [if_pos hk] at hp
        rcases List.mem_cons.mp hp with rfl | hmem
        · simp
        · exact ih p (h ▸ List.mem_cons_of_mem _ hmem)
      · rw [if_neg hk] at hp
        rcases List.mem_cons.mp hp with rfl | hmem
        · simp
        · exact ih p (h ▸ hmem)

theorem groupRuns_mem_keys (l : List AlertDto) (k : String) :
    k ∈ (groupRuns l).map Prod.fst ↔ ∃ a ∈ l, fpKey a = k := by
  constructor
  · intro hk
    obtain ⟨p, hp, rfl⟩ := List.mem_map.mp hk
    obtain ⟨a, ha⟩ := List.exists_mem_of_ne_nil _ (groupRuns_group_ne_nil l p hp)
    refine ⟨a, ?_, groupRuns_key l p hp a ha⟩
    rw [← groupRuns_flatten l]
    exact groupsFlatten_mem.mpr ⟨p, hp, ha⟩
  · rintro ⟨a, ha, rfl⟩
    rw [← groupRuns_flatten l] at ha
    obtain ⟨p, hp, hap⟩ := groupsFlatten_mem.mp ha
    rw [groupRuns_key l p hp a hap]
    exact List.mem_map.mpr ⟨p, hp, rfl⟩

/-- The strict relation between distinct keys of consecutive runs: weakly
ordered and distinct. -/
def strRne (k k' : String) : Prop := lexLeb k.data k'.data = true ∧ k ≠ k'

theorem groupRuns_keys_pairwise :
    ∀ l : List AlertDto, List.Pairwise fpLe l →
      List.Pairwise strRne ((groupRuns l).map Prod.fst)
  | [], _ => by simp [groupRuns]
  | a :: rest, hp => by
    obtain ⟨ha, hrest⟩ := List.pairwise_cons.mp hp
    have ih := groupRuns_keys_pairwise rest hrest
    cases h : groupRuns rest with
    | nil => simp [groupRuns, h]
    | cons q gs =>
      obtain ⟨k, g⟩ := q
      rw [h] at ih
      have hale : ∀ k', k' ∈ ((k, g) :: gs).map Prod.fst →
          lexLeb (fpKey a).data k'.data = true := by
        intro k' hk'
        obtain ⟨b, hb, rfl⟩ := (groupRuns_mem_keys rest k').mp (h ▸ hk')
        exact ha b hb
      by_cases hk : fpKey a = k
      · rw [groupRuns_eq_cons a rest k g gs h, if_pos hk]
        exact ih
      · rw [groupRuns_eq_cons a rest k g gs h, if_neg hk]
        refine List.pairwise_cons.mpr ⟨?_, ih⟩
        intro k' hk'
        rcases List.mem_cons.mp hk' with rfl | hmem
        · exact ⟨hale k' (by simp), hk⟩
        · obtain ⟨hkk', hne⟩ := (List.pairwise_cons.mp ih).1 k' (by simpa using hmem)
          refine ⟨lexLeb_trans _ _ _ (hale k (by simp)) hkk', ?_⟩
          intro heq
          apply hne
          exact lexLeb_antisymm_str hkk' (heq ▸ hale k (by simp))

theorem groupRuns_keys_nodup (l : List AlertDto) (h : List.Pairwise fpLe l) :
    ((groupRuns l).map Prod.fst).Nodup :=
  (groupRuns_keys_pairwise l h).imp fun hr => hr.2

theorem groupsSet_notmem :
    ∀ (d : List (String × List AlertDto)) (k : String) (v : List AlertDto),
      k ∉ d.map Prod.fst → groupsSet d k v = d ++ [(k, v)]
  | [], _, _, _ => rfl
  | (k', v') :: rest, k, v, h => by
    have hne : ¬ k = k' := fun e => h (by simp [e])
    rw [groupsSet, if_neg hne,
      groupsSet_notmem rest k v (fun hm => h (by simp [hm]))]
    simp

theorem groupsOfPairs_aux :
    ∀ (ps acc : List (String × List AlertDto)),
      (∀ p ∈ ps, p.1 ∉ acc.map Prod.fst) → (ps.map Prod.fst).Nodup →
      ps.foldl (fun d p => groupsSet d p.1 p.2) acc = acc ++ ps
  | [], acc, _, _ => by simp
  | p :: rest, acc, hdis, hnd => by
    obtain ⟨k, v⟩ := p
    have hnd' : (k :: rest.map Prod.fst).Nodup := by simpa using hnd
    obtain ⟨hknotin, hndrest⟩ := List.nodup_cons.mp hnd'
    rw [List.foldl_cons]
    rw [groupsSet_notmem acc k v (hdis (k, v) (List.mem_cons_self _ _))]
    rw [groupsOfPairs_aux rest (acc ++ [(k, v)]) ?_ hndrest]
    · simp
    · intro q hq
      simp only [List.map_append, List.mem_append, List.map_cons, List.map_nil,
        List.mem_singleton, not_or]
      refine ⟨hdis q (List.mem_cons_of_mem _ hq), ?_⟩
      intro he
      exact hknotin (he ▸ List.mem_map.mpr ⟨q, hq, rfl⟩)

theorem groupsOfPairs_eq (ps : List (String × List AlertDto))
    (h : (ps.map Prod.fst).Nodup) : groupsOfPairs ps = ps := by
  simpa using groupsOfPairs_aux ps [] (by simp) h

/-- After sorting by fingerprint, the runs have pairwise-distinct keys, so
the dict comprehension returns exactly the list of runs. -/
theorem group_alerts_eq_runs (alerts : List AlertDto) :
    group_alerts_by_fingerprint alerts = groupRuns (pySortAlerts alerts) :=
  groupsOfPairs_eq _
    (groupRuns_keys_nodup _ (List.sorted_insertionSort fpLe alerts))

/-! ## Claims C2, C3 and C7 -/

/-- Alert with the later `lastReceived`, fetched first (claim C2). -/
def c2AlertLate : AlertDto := { name := "late", fingerprint := some "f", lastReceived := 2 }

/-- Alert with the earlier `lastReceived`, fetched second (claim C2). -/
def c2AlertEarly : AlertDto := { name := "early", fingerprint := some "f", lastReceived := 1 }

/-- Claim C2 (code_bug evidence): the function's docstring and the spec say
each fingerprint group is "sorted by lastReceived", but the code sorts only
by the fingerprint key (`sorted(alerts, key=attrgetter("fingerprint"))`,
a stable sort), leaving each group in original fetch order.  Two alerts
with the same fingerprint fetched with `lastReceived` values `[2, 1]` stay
in that order inside their group, which is not ascending. -/
theorem grouping_not_sorted_by_lastReceived :
    ((group_alerts_by_fingerprint [c2AlertLate, c2AlertEarly]).map
      (fun p => (p.1, p.2.map AlertDto.lastReceived))) = [("f", [2, 1])]
    ∧ ¬ List.Sorted (· ≤ ·) [2, 1] := by
  constructor
  · decide
  · decide

/-- Claim C3: for every fetched alert list in which every alert carries a
fingerprint, the grouping returned by `get_alerts_by_fingerprint` is a
partition of the fetched alerts: its key set is exactly the set of
fingerprints, every alert appears exactly once across the groups (the
concatenation of the groups is a permutation of the fetched list), and
each alert sits in the group keyed by its own fingerprint.  (The
enrichment overlay that follows the grouping step mutates the alert
objects in place and does not move alerts between groups.) -/
theorem grouping_is_partition (alerts : List AlertDto)
    (_hfp : ∀ a ∈ alerts, a.fingerprint.isSome) :
    (∀ s, s ∈ (group_alerts_by_fingerprint alerts).map Prod.fst ↔ s ∈ alerts.map fpKey)
    ∧ (groupsFlatten (group_alerts_by_fingerprint alerts)).Perm alerts
    ∧ ∀ p ∈ group_alerts_by_fingerprint alerts, ∀ a ∈ p.2, fpKey a = p.1 := by
  rw [group_alerts_eq_runs]
  refine ⟨?_, ?_, groupRuns_key _⟩
  · intro s
    rw [groupRuns_mem_keys]
    constructor
    · rintro ⟨a, ha, rfl⟩
      exact List.mem_map.mpr
        ⟨a, (List.perm_insertionSort fpLe alerts).mem_iff.mp ha, rfl⟩
    · intro hs
      obtain ⟨a, ha, rfl⟩ := List.mem_map.mp hs
      exact ⟨a, (List.perm_insertionSort fpLe alerts).mem_iff.mpr ha, rfl⟩
  · rw [groupRuns_flatten]
    exact List.perm_insertionSort fpLe alerts

def c3Alert1 : AlertDto := { name := "a1", fingerprint := some "f1", lastReceived := 1 }

def c3Alert2 : AlertDto := { name := "a2", fingerprint := some "f2", lastReceived := 3 }

def c3Alert3 : AlertDto := { name := "a3", fingerprint := some "f1", lastReceived := 2 }

/-- Witness for C3 at the spec's own example (fingerprints
`["f1","f2","f1"]`): the hypothesis that every alert carries a fingerprint
holds and the partition properties follow. -/
theorem grouping_is_partition_witness :
    (∀ s, s ∈ (group_alerts_by_fingerprint [c3Alert1, c3Alert2, c3Alert3]).map Prod.fst ↔
        s ∈ [c3Alert1, c3Alert2, c3Alert3].map fpKey)
    ∧ (groupsFlatten (group_alerts_by_fingerprint [c3Alert1, c3Alert2, c3Alert3])).Perm
        [c3Alert1, c3Alert2, c3Alert3]
    ∧ ∀ p ∈ group_alerts_by_fingerprint [c3Alert1, c3Alert2, c3Alert3],
        ∀ a ∈ p.2, fpKey a = p.1 :=
  grouping_is_partition [c3Alert1, c3Alert2, c3Alert3] (by decide)

/-- Claim C7: when `get_alerts()` returns zero alerts,
`get_alerts_by_fingerprint` returns the empty mapping and the store-call
log is empty: `get_enrichments` is never invoked. -/
theorem empty_fetch_no_store_call (pedaa : AlertDto → ValDict → AlertDto)
    (store : String → List String → List AlertEnrichment)
    (tenant_id provider_id : String) :
    get_alerts_by_fingerprint pedaa store tenant_id (get_alerts provider_id []) =
      .ok ([], []) := rfl

/-! ## Enrichment (`_enrich_alert`, source lines 130-194) -/

/-- Python `s.startswith(p)`. -/
def pyStartsWith (s p : String) : Bool := p.data.isPrefixOf s.data

/-- Fuel-indexed core of Python `str.replace`: scan left to right; wherever
the pattern matches, emit the replacement and continue after the match
(non-overlapping); otherwise copy one character.  One unit of fuel is spent
per step and every step consumes at least one input character, so fuel
equal to the input length always suffices. -/
def pyReplaceFuel (pat rep : List Char) : Nat → List Char → List Char
  | 0, cs => cs
  | _ + 1, [] => []
  | fuel + 1, c :: cs =>
    if !pat.isEmpty && pat.isPrefixOf (c :: cs) then
      rep ++ pyReplaceFuel pat rep fuel (List.drop pat.length (c :: cs))
    else c :: pyReplaceFuel pat rep fuel cs

/-- Python `s.replace(pat, rep)`: replace every occurrence, not only a
leading one.  (The behaviour of Python's `replace` with an empty pattern is
not modelled; the source only ever replaces `"results."`.) -/
def pyReplace (s pat rep : String) : String :=
  ⟨pyReplaceFuel pat.data rep.data s.data.length s.data⟩

def pySplitAux (sep : Char) : List Char → List Char → List String
  | [], acc => [⟨acc.reverse⟩]
  | c :: cs, acc =>
    if c = sep then ⟨acc.reverse⟩ :: pySplitAux sep cs []
    else pySplitAux sep cs (c :: acc)

/-- Python `s.split(sep)` for a one-character separator: split at every
occurrence, keeping empty pieces (`"".split(".") == [""]`). -/
def pySplitOnChar (sep : Char) (s : String) : List String :=
  pySplitAux sep s.data []

/-- An enrichment instruction `{"key": ..., "value": ...}` as found in the
`enrich_alert` keyword argument. -/
structure Instr where
  key : String
  value : String
deriving DecidableEq

/-- The navigation loop `for part in parts: r = r[part]` (source lines
174-175): a dict lookup at each step.  A missing key (`KeyError`) or
string-indexing a non-dict (`TypeError`) raises, which the enclosing `try`
turns into skipping the instruction; both are modelled as `none`. -/
def walkParts : Val → List String → Option Val
  | r, [] => some r
  | .dict d, p :: ps =>
    match d.get? p with
    | some v => walkParts v ps
    | none => none
  | _, _ :: _ => none

/-- One iteration of the enrichment loop (source lines 168-184): a value
starting with `results.` is resolved by deleting every occurrence of
`"results."` (Python's `str.replace` replaces all occurrences, not just
the leading prefix), splitting on dots and walking the result into
`results`; resolution failure skips the instruction; any other value is
bound literally. -/
def enrichInstrStep (results : Val) (acc : ValDict) (e : Instr) : ValDict :=
  if pyStartsWith e.value "results." then
    match walkParts results (pySplitOnChar '.' (pyReplace e.value "results." "")) with
    | some r => acc.set e.key r
    | none => acc
  else acc.set e.key (.str e.value)

/-- The `_enrichments` dict built by the loop of source lines 166-184. -/
def computeEnrichments (enrichments : List Instr) (results : Val) : ValDict :=
  enrichments.foldl (enrichInstrStep results) .nil

/-- The slice of the execution context `_enrich_alert` reads: the
`foreach_context` dict (whose `"value"` entry is the current loop item,
possibly a tuple when zipped) and the ambient event context, either a raw
dict or a canonical Alert. -/
structure ContextModel where
  foreach_context : ValDict
  event_context : Option (ValDict ⊕ AlertDto)

/-- Python truthiness of the event context: `None` and an empty dict are
falsy, an Alert object is always truthy. -/
def eventTruthy : Option (ValDict ⊕ AlertDto) → Bool
  | none => false
  | some (.inl d) => !d.isEmpty
  | some (.inr _) => true

/-- The fingerprint-derivation chain of `_enrich_alert` (source lines
135-156): first a `"fingerprint"` entry of `results`; else, if the foreach
value is truthy, its `"fingerprint"` entry (taking the first element when
the value is a tuple; a non-dict raises `AttributeError` on `.get`); else,
if the event context is truthy, its fingerprint; else `None`. -/
def deriveFingerprint (cm : ContextModel) (results : ValDict) : Except PyErr Val :=
  match results.get? "fingerprint" with
  | some v => .ok v
  | none =>
    let fv : Val := (cm.foreach_context.get? "value").getD (.dict .nil)
    if fv.truthy then
      match fv with
      | .tuple (.cons first _) =>
        match first with
        | .dict d => .ok ((d.get? "fingerprint").getD .null)
        | _ => .error .attributeError
      | .tuple .nil => .error .indexError
      | .dict d => .ok ((d.get? "fingerprint").getD .null)
      | _ => .error .attributeError
    else if eventTruthy cm.event_context then
      match cm.event_context with
      | some (.inl d) => .ok ((d.get? "fingerprint").getD .null)
      | some (.inr alert) => .ok (optStrVal alert.fingerprint)
      | none => .ok .null
    else .ok .null

/-- `BaseProvider._enrich_alert` (source lines 130-194), with the external
store call made explicit in the result: derive a fingerprint (derivation
errors propagate), raise when it is falsy (`if not fingerprint: raise`),
otherwise compute the enrichment dict and call the store exactly once —
the `.ok` value is the `(fingerprint, _enrichments)` argument pair of that
single `enrich_alert` store call, and an `.error` result means the store
was never called. -/
def enrichAlertOp (cm : ContextModel) (enrichments : List Instr) (results : ValDict) :
    Except PyErr (Val × ValDict) :=
  match deriveFingerprint cm results with
  | .error e => .error e
  | .ok fp =>
    if fp.truthy then .ok (fp, computeEnrichments enrichments (.dict results))
    else .error .noFingerprintError

/-! ## Claim C4 -/

theorem valdict_get_set_self : ∀ (d : ValDict) (k : String) (v : Val),
    (d.set k v).get? k = some v
  | .nil, k, v => by simp [ValDict.set, ValDict.get?]
  | .cons k' v' rest, k, v => by
    by_cases h : k = k'
    · simp [ValDict.set, ValDict.get?, h]
    · simp [ValDict.set, ValDict.get?, h, valdict_get_set_self rest k v]

theorem valdict_get_set_other : ∀ (d : ValDict) (k k' : String) (v : Val),
    k ≠ k' → (d.set k' v).get? k = d.get? k
  | .nil, k, k', v, h => by simp [ValDict.set, ValDict.get?, h]
  | .cons k'' v'' rest, k, k', v, h => by
    by_cases h1 : k' = k''
    · subst h1
      simp [ValDict.set, ValDict.get?, h]
    · by_cases h2 : k = k''
      · simp [ValDict.set, ValDict.get?, h1, h2]
      · simp [ValDict.set, ValDict.get?, h1, h2,
          valdict_get_set_other rest k k' v h]

/-- The resolution of a single instruction, named after the amended claim
C4: a value starting with `results.` resolves by walking the path obtained
by deleting every occurrence of `"results."`; any other value resolves to
itself literally. -/
def resolveInstr (results : Val) (e : Instr) : Option Val :=
  if pyStartsWith e.value "results." then
    walkParts results (pySplitOnChar '.' (pyReplace e.value "results." ""))
  else some (.str e.value)

theorem enrichInstrStep_eq (results : Val) (acc : ValDict) (e : Instr) :
    enrichInstrStep results acc e =
      match resolveInstr results e with
      | some v => acc.set e.key v
      | none => acc := by
  by_cases h : pyStartsWith e.value "results." = true
  · cases hw : walkParts results (pySplitOnChar '.' (pyReplace e.value "results." "")) <;>
      simp [enrichInstrStep, resolveInstr, h, hw]
  · simp [enrichInstrStep, resolveInstr, h]

theorem enrichFold_get_notmem (results : Val) :
    ∀ (ins : List Instr) (acc : ValDict) (k : String),
      (∀ e ∈ ins, e.key ≠ k) →
      (ins.foldl (enrichInstrStep results) acc).get? k = acc.get? k
  | [], _, _, _ => rfl
  | e :: rest, acc, k, h => by
    rw [List.foldl_cons,
      enrichFold_get_notmem results rest _ k fun e' he' => h e' (List.mem_cons_of_mem _ he')]
    rw [enrichInstrStep_eq]
    cases hr : resolveInstr results e with
    | none => rfl
    | some v => exact valdict_get_set_other acc k e.key v (h e (List.mem_cons_self _ _)).symm

theorem enrichFold_get_mem (results : Val) :
    ∀ (ins : List Instr) (acc : ValDict) (e : Instr), e ∈ ins →
      (ins.map Instr.key).Nodup → acc.get? e.key = none →
      (ins.foldl (enrichInstrStep results) acc).get? e.key = resolveInstr results e
  | [], _, _, he, _, _ => absurd he (List.not_mem_nil _)
  | e' :: rest, acc, e, he, hnd, hacc => by
    have hnd' : (e'.key :: rest.map Instr.key).Nodup := by simpa using hnd
    obtain ⟨hknotin, hndrest⟩ := List.nodup_cons.mp hnd'
    rw [List.foldl_cons]
    rcases List.mem_cons.mp he with rfl | hmem
    · have hlater : ∀ e'' ∈ rest, e''.key ≠ e.key := by
        intro e'' he'' heq
        exact hknotin (heq ▸ List.mem_map.mpr ⟨e'', he'', rfl⟩)
      rw [enrichFold_get_notmem results rest _ e.key hlater]
      rw [enrichInstrStep_eq]
      cases hr : resolveInstr results e with
      | none => exact hacc
      | some v => exact valdict_get_set_self acc e.key v
    · have hne : e.key ≠ e'.key := by
        intro heq
        exact hknotin (heq ▸ List.mem_map.mpr ⟨e, hmem, rfl⟩)
      have hacc2 : (enrichInstrStep results acc e').get? e.key = none := by
        rw [enrichInstrStep_eq]
        cases hr : resolveInstr results e' with
        | none => exact hacc
        | some v => rw [valdict_get_set_other acc e.key e'.key v hne]; exact hacc
      exact enrichFold_get_mem results rest _ e hmem hndrest hacc2

def c4Instr : Instr := ⟨"x", "results.a.results.b"⟩

/-- A results payload on which deleting only the leading `results.` would
navigate `a → results → b` successfully. -/
def c4Results : Val :=
  .dict (.cons "a" (.dict (.cons "results" (.dict (.cons "b" (.nat 42) .nil)) .nil)) .nil)

/-- Counterexample to claim C4 as stated: for the instruction
`{key: "x", value: "results.a.results.b"}`, the remainder of the value
after the `results.` prefix is the path `a.results.b`, which resolves to
`42` in `c4Results` (second conjunct), so the claim demands the binding
`{"x": 42}` — but the code's `value.replace("results.", "")` deletes every
occurrence, walks `a.b` instead, fails, and produces the empty mapping
(first conjunct). -/
theorem enrichment_replace_all_counterexample :
    computeEnrichments [c4Instr] c4Results = .nil
    ∧ walkParts c4Results ["a", "results", "b"] = some (.nat 42) := ⟨rfl, rfl⟩

/-- Amended claim C4: for instructions with pairwise-distinct keys, the
computed enrichment mapping binds each instruction's key exactly to its
resolution — a value starting with `results.` is resolved by walking, as a
dot-separated path into `results`, the value with *every* occurrence of
`"results."` deleted (not just the leading prefix); a failed walk leaves
exactly that key unbound while every other instruction is still processed;
a value without the prefix is bound literally. -/
theorem computeEnrichments_binds (ins : List Instr) (results : Val)
    (hnd : (ins.map Instr.key).Nodup) :
    ∀ e ∈ ins, (computeEnrichments ins results).get? e.key = resolveInstr results e :=
  fun e he => enrichFold_get_mem results ins .nil e he hnd rfl

def c4wIns : List Instr := [⟨"x", "results.a.b"⟩, ⟨"y", "lit"⟩]

def c4wResults : Val := .dict (.cons "a" (.dict .nil) .nil)

/-- Witness for the amended claim C4, at the spec's own example: with
`results = {"a": {}}` the path `a.b` of the first instruction fails to
resolve, so `"x"` stays unbound, while the literal second instruction is
still processed and binds `"y"`. -/
theorem computeEnrichments_binds_witness :
    (computeEnrichments c4wIns c4wResults).get? "x" = none
    ∧ (computeEnrichments c4wIns c4wResults).get? "y" = some (.str "lit") :=
  ⟨(computeEnrichments_binds c4wIns c4wResults (by decide) ⟨"x", "results.a.b"⟩
      (by decide)).trans rfl,
   (computeEnrichments_binds c4wIns c4wResults (by decide) ⟨"y", "lit"⟩
      (by decide)).trans rfl⟩

/-! ## Claim C6 -/

/-- Claim C6: the fingerprint for an enrichment call is derived by the
three-tier fallback in exactly this precedence order — the `"fingerprint"`
entry of `results`, else the (truthy) foreach loop value (first element
when it is a tuple), else the (truthy) ambient event context — and when
the derivation fails or yields a falsy fingerprint, `_enrich_alert` raises
and the enrichment store is never called (`.error` means no store call was
made).  The clauses: (1) a falsy/failed derivation always errors; (2) a
truthy `results["fingerprint"]` wins regardless of both contexts; (3) with
no tier-1 entry, a truthy foreach dict's fingerprint is used; (4) a truthy
foreach dict *without* a truthy fingerprint errors even when the event
context carries one — tier 3 is not consulted; (5) a zipped (tuple)
foreach value is resolved through its first element; (6) with tiers 1-2
absent/falsy, a truthy event dict's fingerprint is used; (7) likewise for
an event Alert; (8) with all tiers absent/falsy the call errors. -/
theorem enrich_alert_fingerprint_rules (cm : ContextModel) (ins : List Instr)
    (results : ValDict) :
    ((∀ v, deriveFingerprint cm results = .ok v → v.truthy = false) →
      ∃ err, enrichAlertOp cm ins results = .error err)
    ∧ (∀ v, results.get? "fingerprint" = some v → v.truthy = true →
        enrichAlertOp cm ins results = .ok (v, computeEnrichments ins (.dict results)))
    ∧ (∀ d v, results.get? "fingerprint" = none →
        cm.foreach_context.get? "value" = some (.dict d) → d.isEmpty = false →
        d.get? "fingerprint" = some v → v.truthy = true →
        enrichAlertOp cm ins results = .ok (v, computeEnrichments ins (.dict results)))
    ∧ (∀ d, results.get? "fingerprint" = none →
        cm.foreach_context.get? "value" = some (.dict d) → d.isEmpty = false →
        d.get? "fingerprint" = none →
        ∃ err, enrichAlertOp cm ins results = .error err)
    ∧ (∀ d items v, results.get? "fingerprint" = none →
        cm.foreach_context.get? "value" = some (.tuple (.cons (.dict d) items)) →
        d.get? "fingerprint" = some v → v.truthy = true →
        enrichAlertOp cm ins results = .ok (v, computeEnrichments ins (.dict results)))
    ∧ (∀ d v, results.get? "fingerprint" = none →
        ((cm.foreach_context.get? "value").getD (.dict .nil)).truthy = false →
        cm.event_context = some (.inl d) → d.isEmpty = false →
        d.get? "fingerprint" = some v → v.truthy = true →
        enrichAlertOp cm ins results = .ok (v, computeEnrichments ins (.dict results)))
    ∧ (∀ a s, results.get? "fingerprint" = none →
        ((cm.foreach_context.get? "value").getD (.dict .nil)).truthy = false →
        cm.event_context = some (.inr a) → a.fingerprint = some s → s ≠ "" →
        enrichAlertOp cm ins results = .ok (.str s, computeEnrichments ins (.dict results)))
    ∧ (results.get? "fingerprint" = none →
        ((cm.foreach_context.get? "value").getD (.dict .nil)).truthy = false →
        eventTruthy cm.event_context = false →
        ∃ err, enrichAlertOp cm ins results = .error err) := by
  refine ⟨?c1, ?c2, ?c3, ?c4, ?c5, ?c6, ?c7, ?c8⟩
  case c1 =>
    intro hfalsy
    cases hd : deriveFingerprint cm results with
    | error err => exact ⟨err, by simp [enrichAlertOp, hd]⟩
    | ok v => exact ⟨.noFingerprintError, by simp [enrichAlertOp, hd, hfalsy v hd]⟩
  case c2 =>
    intro v h1 htr
    simp [enrichAlertOp, deriveFingerprint, h1, htr]
  case c3 =>
    intro d v h1 h2 hne h3 htr
    have hdt : (Val.dict d).truthy = true := by simp [Val.truthy, hne]
    simp [enrichAlertOp, deriveFingerprint, h1, h2, hdt, h3, htr]
  case c4 =>
    intro d h1 h2 hne h3
    refine ⟨.noFingerprintError, ?_⟩
    have hdt : (Val.dict d).truthy = true := by simp [Val.truthy, hne]
    simp [enrichAlertOp, deriveFingerprint, h1, h2, hdt, h3, hne, Val.truthy]
  case c5 =>
    intro d items v h1 h2 h3 htr
    have htt : (Val.tuple (.cons (.dict d) items)).truthy = true := by
      simp [Val.truthy, ValList.isEmpty]
    simp [enrichAlertOp, deriveFingerprint, h1, h2, htt, h3, htr]
  case c6 =>
    intro d v h1 h2 h3 hne h4 htr
    have het : eventTruthy (some (Sum.inl d)) = true := by simp [eventTruthy, hne]
    simp [enrichAlertOp, deriveFingerprint, h1, h2, h3, het, h4, htr]
  case c7 =>
    intro a s h1 h2 h3 h4 h5
    have hb : (s == "") = false := by simpa using h5
    have het : eventTruthy (some (Sum.inr a)) = true := rfl
    have hst : (Val.str s).truthy = true := by simp [Val.truthy, hb]
    simp [enrichAlertOp, deriveFingerprint, h1, h2, h3, het, h4, optStrVal, hst]
  case c8 =>
    intro h1 h2 h3
    refine ⟨.noFingerprintError, ?_⟩
    have hnull : Val.truthy .null = false := rfl
    simp [enrichAlertOp, deriveFingerprint, h1, h2, h3, hnull]

def c6ResultsWithFp : ValDict := .cons "fingerprint" (.str "fp-1") .nil

/-- A context whose foreach value is a truthy dict with no fingerprint and
whose event context does carry one. -/
def c6Cm : ContextModel :=
  ⟨.cons "value" (.dict (.cons "other" (.nat 1) .nil)) .nil,
   some (.inl (.cons "fingerprint" (.str "fp-event") .nil))⟩

/-- Witness for C6: a truthy `results["fingerprint"]` is used as-is (tier
1), and a truthy foreach dict without a fingerprint aborts the call with
no store call even though the event context holds a fingerprint (tier 2
shadows tier 3). -/
theorem enrich_alert_fingerprint_rules_witness :
    enrichAlertOp c6Cm [] c6ResultsWithFp = .ok (.str "fp-1", .nil)
    ∧ ∃ err, enrichAlertOp c6Cm [] .nil = .error err :=
  ⟨(enrich_alert_fingerprint_rules c6Cm [] c6ResultsWithFp).2.1 (.str "fp-1") rfl rfl,
   (enrich_alert_fingerprint_rules c6Cm [] .nil).2.2.2.1
     (.cons "other" (.nat 1) .nil) rfl rfl rfl rfl⟩

/-! ## Claims C8, C9, C5 and C10 (fingerprint engine) -/

/-- Claim C8: with an empty fingerprint-field list, `get_alert_fingerprint`
returns the alert's `name` unmodified — the digest is never initialized or
updated. -/
theorem fingerprint_empty_fields_returns_name (a : AlertDto) :
    get_alert_fingerprint a [] = a.name := rfl

theorem fingerprint_fold_congr :
    ∀ (F : List String) (dA dB : ValDict) (hA hB : Sha256),
      (∀ f ∈ F, dA.get? f = dB.get? f) → hA = hB →
      F.foldl (fingerprintFieldStep dA) hA = F.foldl (fingerprintFieldStep dB) hB
  | [], _, _, _, _, _, h => h
  | f :: rest, dA, dB, hA, hB, hf, h => by
    rw [List.foldl_cons, List.foldl_cons]
    refine fingerprint_fold_congr rest dA dB _ _
      (fun g hg => hf g (List.mem_cons_of_mem _ hg)) ?_
    rw [h]
    unfold fingerprintFieldStep
    rw [hf f (List.mem_cons_self _ _)]

/-- Claim C9: for a non-empty field list F, the fingerprint depends only on
the projection of `alert.dict()` onto F — two alerts whose values agree on
every field of F get the same fingerprint, whatever their other fields
(name included) are. -/
theorem fingerprint_depends_only_on_fields (F : List String) (hF : F ≠ [])
    (A B : AlertDto) (h : ∀ f ∈ F, A.dict.get? f = B.dict.get? f) :
    get_alert_fingerprint A F = get_alert_fingerprint B F := by
  have hne : F.isEmpty = false := by
    cases F
    · exact absurd rfl hF
    · rfl
  unfold get_alert_fingerprint
  rw [hne]
  simp only [Bool.false_eq_true, if_false]
  rw [fingerprint_fold_congr F A.dict B.dict Sha256.init Sha256.init h rfl]

def c9AlertA : AlertDto := { name := "cpu high on host1", severity := "critical" }

def c9AlertB : AlertDto := { name := "cpu high on host2", severity := "critical" }

/-- Witness for C9: two alerts differing in name but agreeing on the one
fingerprint field get the same fingerprint. -/
theorem fingerprint_depends_only_on_fields_witness :
    get_alert_fingerprint c9AlertA ["severity"] =
      get_alert_fingerprint c9AlertB ["severity"] :=
  fingerprint_depends_only_on_fields ["severity"] (by decide) c9AlertA c9AlertB
    (by
      intro f hf
      cases List.mem_singleton.mp hf
      rfl)

def Val.isComposite : Val → Bool
  | .list _ => true
  | .dict _ => true
  | _ => false

def c5DictAB : ValDict := .cons "a" (.nat 1) (.cons "b" (.nat 2) .nil)

def c5DictBA : ValDict := .cons "b" (.nat 2) (.cons "a" (.nat 1) .nil)

def c5AlertA : AlertDto := { name := "same", extra := .cons "ctx" (.dict c5DictAB) .nil }

def c5AlertB : AlertDto := { name := "same", extra := .cons "ctx" (.dict c5DictBA) .nil }

/-- Counterexample to claim C5 as stated: the two alerts' `"ctx"` values
are equal as mappings — every key looks up to the same value (first
conjunct) — yet their fingerprints differ (second conjunct), because
`json.dumps` serializes dict entries in insertion order; the code never
canonicalizes key order (`sort_keys` is not used). -/
theorem fingerprint_no_canonical_key_order :
    (∀ k, c5DictAB.get? k = c5DictBA.get? k)
    ∧ get_alert_fingerprint c5AlertA ["ctx"] ≠ get_alert_fingerprint c5AlertB ["ctx"] := by
  constructor
  · intro k
    by_cases h1 : k = "a"
    · subst h1; rfl
    · by_cases h2 : k = "b"
      · subst h2; rfl
      · simp [c5DictAB, c5DictBA, ValDict.get?, h1, h2]
  · decide

/-- Amended claim C5: a composite (list/mapping) field value is serialized
with `json.dumps`, which keeps the mapping's own insertion order (there is
no canonical key reordering): two alerts whose values for every field in
the list are the same composite — equal *as ordered values*, same key
insertion order — receive the same fingerprint; mappings equal only up to
key order may receive different fingerprints. -/
theorem fingerprint_equal_ordered_composites (F : List String) (hF : F ≠ [])
    (A B : AlertDto)
    (h : ∀ f ∈ F, ∃ v : Val, A.dict.get? f = some v ∧ B.dict.get? f = some v ∧
        v.isComposite = true) :
    get_alert_fingerprint A F = get_alert_fingerprint B F := by
  have h' : ∀ f ∈ F, A.dict.get? f = B.dict.get? f := by
    intro f hf
    obtain ⟨v, h1, h2, _⟩ := h f hf
    rw [h1, h2]
  have hne : F.isEmpty = false := by
    cases F
    · exact absurd rfl hF
    · rfl
  unfold get_alert_fingerprint
  rw [hne]
  simp only [Bool.false_eq_true, if_false]
  rw [fingerprint_fold_congr F A.dict B.dict Sha256.init Sha256.init h' rfl]

def c5wAlertA : AlertDto :=
  { name := "w1", extra := .cons "labels" (.dict (.cons "k" (.str "v") .nil)) .nil }

def c5wAlertB : AlertDto :=
  { name := "w2", extra := .cons "labels" (.dict (.cons "k" (.str "v") .nil)) .nil }

/-- Witness for the amended claim C5: identically-ordered equal mapping
values on the fingerprint field give equal fingerprints. -/
theorem fingerprint_equal_ordered_composites_witness :
    get_alert_fingerprint c5wAlertA ["labels"] =
      get_alert_fingerprint c5wAlertB ["labels"] :=
  fingerprint_equal_ordered_composites ["labels"] (by decide) c5wAlertA c5wAlertB
    (by
      intro f hf
      cases List.mem_singleton.mp hf
      exact ⟨.dict (.cons "k" (.str "v") .nil), rfl, rfl, rfl⟩)

/-- A field value the digest loop skips: absent, or falsy and not a
composite (`None`, the empty string, `0`, `False`, the empty tuple).
Composite values are excluded: the code replaces a list/dict by its
`json.dumps` string *before* the truthiness test, and that string is never
empty. -/
def falsyNonComposite : Option Val → Prop
  | none => True
  | some .null => True
  | some (.str s) => s = ""
  | some (.nat n) => n = 0
  | some (.bool b) => b = false
  | some (.tuple items) => items = .nil
  | some (.list _) => False
  | some (.dict _) => False

theorem fingerprintFieldStep_skip (d : ValDict) (h0 : Sha256) (f : String)
    (h : falsyNonComposite (d.get? f)) : fingerprintFieldStep d h0 f = h0 := by
  cases hov : d.get? f with
  | none => simp [fingerprintFieldStep, hov, Val.truthy]
  | some v =>
    rw [hov] at h
    cases v with
    | null => simp [fingerprintFieldStep, hov, Val.truthy]
    | str s =>
      have hs : s = "" := h
      subst hs
      simp [fingerprintFieldStep, hov, Val.truthy]
    | nat n =>
      have hn : n = 0 := h
      subst hn
      simp [fingerprintFieldStep, hov, Val.truthy]
    | bool b =>
      have hb : b = false := h
      subst hb
      simp [fingerprintFieldStep, hov, Val.truthy]
    | tuple items =>
      have hi : items = .nil := h
      subst hi
      simp [fingerprintFieldStep, hov, Val.truthy, ValList.isEmpty]
    | list items => exact absurd h not_false
    | dict entries => exact absurd h not_false

theorem fingerprint_fold_skip :
    ∀ (F : List String) (d : ValDict) (h0 : Sha256),
      (∀ f ∈ F, falsyNonComposite (d.get? f)) →
      F.foldl (fingerprintFieldStep d) h0 = h0
  | [], _, _, _ => rfl
  | f :: rest, d, h0, h => by
    rw [List.foldl_cons, fingerprintFieldStep_skip d h0 f (h f (List.mem_cons_self _ _))]
    exact fingerprint_fold_skip rest d h0 fun g hg => h g (List.mem_cons_of_mem _ hg)

/-- Amended claim C10: when every field of a non-empty field list is
absent or has a falsy *non-composite* value on the alert, the fingerprint
is the hex digest of the empty SHA-256 input — one constant shared by all
such alerts regardless of their names; the name fallback applies only to
an empty field list.  (Falsy composite values — empty lists/mappings — are
excluded: they are serialized to a non-empty JSON string and fed to the
digest, see the counterexample.) -/
theorem fingerprint_all_skipped_empty_digest (A : AlertDto) (F : List String)
    (hF : F ≠ []) (h : ∀ f ∈ F, falsyNonComposite (A.dict.get? f)) :
    get_alert_fingerprint A F = sha256EmptyHexDigest := by
  have hne : F.isEmpty = false := by
    cases F
    · exact absurd rfl hF
    · rfl
  unfold get_alert_fingerprint
  rw [hne]
  simp only [Bool.false_eq_true, if_false]
  rw [fingerprint_fold_skip F A.dict Sha256.init h]
  rfl

def c10Alert : AlertDto := { name := "named", extra := .cons "labels" (.list .nil) .nil }

/-- Counterexample to claim C10 as stated: the value of field `"labels"`
is the empty list — falsy in Python (first conjunct) — yet the fingerprint
is not the empty-input digest (second conjunct): the code replaces the
composite by `json.dumps([]) == "[]"` before the truthiness test, and that
non-empty string is fed to the digest. -/
theorem fingerprint_falsy_composite_fed :
    Val.truthy (.list .nil) = false
    ∧ get_alert_fingerprint c10Alert ["labels"] ≠ sha256EmptyHexDigest :=
  ⟨rfl, by decide⟩

def c10wAlert : AlertDto :=
  { name := "w", extra := .cons "note" (.str "") (.cons "count" (.nat 0) .nil) }

/-- Witness for the amended claim C10: a field with the empty string, a
field with `0` and an absent field are all skipped, leaving the digest at
its empty-input value. -/
theorem fingerprint_all_skipped_empty_digest_witness :
    get_alert_fingerprint c10wAlert ["note", "count", "missing"] = sha256EmptyHexDigest :=
  fingerprint_all_skipped_empty_digest c10wAlert ["note", "count", "missing"]
    (by decide)
    (by
      intro f hf
      fin_cases hf
      · exact rfl
      · exact rfl
      · exact trivial)

/-! ## Claim C1 (`_push_alert`, source lines 487-545) -/

def getStrD (d : ValDict) (k : String) (dflt : String) : String :=
  match d.get? k with
  | some (.str s) => s
  | _ => dflt

def getNatD (d : ValDict) (k : String) (dflt : Nat) : Nat :=
  match d.get? k with
  | some (.nat n) => n
  | _ => dflt

def getBoolD (d : ValDict) (k : String) (dflt : Bool) : Bool :=
  match d.get? k with
  | some (.bool b) => b
  | _ => dflt

def getOptStr (d : ValDict) (k : String) : Option String :=
  match d.get? k with
  | some (.str s) => some s
  | _ => none

def ValList.toStrings : ValList → List String
  | .nil => []
  | .cons (.str s) rest => s :: rest.toStrings
  | .cons _ rest => rest.toStrings

def getListStrD (d : ValDict) (k : String) (dflt : List String) : List String :=
  match d.get? k with
  | some (.list items) => items.toStrings
  | _ => dflt

/-- Modelled from the spec: construction of the canonical Alert from a push
payload (source lines 513-530; the `AlertDto` validator itself lives
outside `src/`).  Each field takes the payload's value when present, else
the documented default: fresh UUIDs for `id`/`event_id`, the
`"alert-from-event-queue"` sentinel for name/environment/service/message/
description, firing status, ingestion time for `lastReceived`, info
severity, `pushed=False`, and the provider type as single-element
`source`.  Payload values of unexpected shape are outside every claim and
fall back to the default here. -/
def buildAlertModel (provider_type fresh_id fresh_event_id : String) (now : Nat)
    (d : ValDict) : AlertDto :=
  { id := getStrD d "id" fresh_id
    name := getStrD d "name" "alert-from-event-queue"
    status := getStrD d "status" "firing"
    lastReceived := getNatD d "lastReceived" now
    environment := getStrD d "environment" "alert-from-event-queue"
    isDuplicate := getBoolD d "isDuplicate" false
    duplicateReason := getOptStr d "duplicateReason"
    service := getStrD d "service" "alert-from-event-queue"
    source := getListStrD d "source" [provider_type]
    message := getStrD d "message" "alert-from-event-queue"
    description := getStrD d "description" "alert-from-event-queue"
    severity := getStrD d "severity" "info"
    pushed := getBoolD d "pushed" false
    event_id := getStrD d "event_id" fresh_event_id
    url := getOptStr d "url"
    fingerprint := getOptStr d "fingerprint"
    providerId := none
    extra := .nil }

/-- `BaseProvider._push_alert` (source lines 487-545).  `json_loads` is the
external `json.loads`, returning `none` where the real parser raises.  The
result: `.ok (some a)` — the alert `a` was built and POSTed to the
delivery endpoint (a non-2xx response is logged, not raised, so the POST
outcome does not appear); `.ok none` — the payload was dismissed with a
warning and nothing was posted; `.error` — an exception escaped.  On a
non-dict input whose parse fails, the source's except handler runs
`alert_data = alert_data`, which reads the still-unassigned local
`alert_data` and raises `UnboundLocalError` (the intended statement was
evidently `alert_data = alert`). -/
def pushAlert (json_loads : Val → Option Val)
    (provider_type fresh_id fresh_event_id : String) (now : Nat) (alert : Val) :
    Except PyErr (Option AlertDto) :=
  match alert with
  | .dict d => .ok (some (buildAlertModel provider_type fresh_id fresh_event_id now d))
  | nonDict =>
    match json_loads nonDict with
    | some (.dict d) =>
      .ok (some (buildAlertModel provider_type fresh_id fresh_event_id now d))
    | some _ => .ok none
    | none => .error .unboundLocalError

/-- Model of `json.loads` at the counterexample input: parsing the string
`"not json"` raises `ValueError`; no other behaviour of the external
parser matters to the claim. -/
def jsonLoadsFailing : Val → Option Val := fun _ => none

/-- Claim C1 (code_bug evidence): on the string `"not json"` — not a
mapping, not parseable as one — `_push_alert` raises `UnboundLocalError`
from `alert_data = alert_data` in its except handler instead of dropping
the input with a warning.  No Alert is constructed and the delivery
endpoint is not contacted, but, contrary to the claim and the spec, an
exception escapes. -/
theorem push_alert_unparseable_raises :
    pushAlert jsonLoadsFailing "queue" "id-0" "ev-0" 0 (.str "not json")
      = .error .unboundLocalError := rfl

end Keep
